import Mathlib

/-!
Verification of the NO2 XGBoost prediction pipeline (`train_and_test.py`).

The pipeline's tabular data model, its column-cleaning / train-test-split
logic (`prep_input`), its run-directory allocator (`prep_output`), its grid
search wrapper (`train_xgb`), its test metrics (`test_metrics`) and the
orchestration of `train_and_run` are shallowly embedded below.  Calls into
third-party libraries (pandas, scikit-learn, numpy) are embedded by modelling
the documented behaviour of the exact library entry points the source invokes
(`train_test_split`, `GridSearchCV`, `r2_score`, `mean_squared_error`,
`os.makedirs`, ...), with machine floats replaced by exact rationals and the
seeded numpy shuffle replaced by an explicit deterministic permutation.
-/

/-! ## Column and dataframe model

A pandas dataframe is modelled as an ordered association list of named
columns.  A column is either an object-dtype column of strings or a numeric
column of rationals; this is what `prep_input` distinguishes via
`in_data[col].dtypes == object`.
-/

/-- Column of a dataframe: object dtype (strings) or float dtype (numbers). -/
inductive Col where
  | obj (vals : List String)
  | flt (vals : List ℚ)
deriving DecidableEq

/-- Dataframe: ordered list of (header, column) pairs. -/
abbrev Df := List (String × Col)

/-- Number of values stored in one column. -/
def colLen : Col → Nat
  | .obj vs => vs.length
  | .flt vs => vs.length

/-- Python `s.replace(' ', '_')` for a 1-character pattern: a character map. -/
def replaceSpaces (s : String) : String :=
  String.mk (s.data.map (fun c => if c = ' ' then '_' else c))

/-- Python `' ' in str(col)[:-1]`: a space occurs before the last character. -/
def hasSpaceBeforeLast (s : String) : Bool :=
  s.data.dropLast.contains ' '

/-- Python `if new[-1] == '_': new = new[:-1]` (on a nonempty `new`). -/
def trimTrailingUnderscore (s : String) : String :=
  if s.data.getLast? = some '_' then String.mk s.data.dropLast else s

/-- The renamed header computed at lines 39–41 of `train_and_test.py`:
spaces become underscores, then one trailing underscore is removed. -/
def cleanHeaderName (s : String) : String :=
  trimTrailingUnderscore (replaceSpaces s)

/-- Whether a column has object dtype. -/
def colIsObj : Col → Bool
  | .obj _ => true
  | .flt _ => false

/-- Value cleaning applied to an object column: every space in every string
value becomes an underscore (`in_data[col].replace(' ', '_', regex=True)`).
Float columns are untouched. -/
def cleanCol : Col → Col
  | .obj vs => .obj (vs.map replaceSpaces)
  | .flt vs => .flt vs

/-- Python `in_data[col].dtypes == object` for the column labelled `col`
(first matching label). -/
def objDtype (df : Df) (col : String) : Bool :=
  match df.find? (fun p => p.1 == col) with
  | some p => colIsObj p.2
  | none => false

/-- In-place value replacement on the column(s) labelled `col`. -/
def valReplace (df : Df) (col : String) : Df :=
  df.map (fun p => if p.1 == col then (p.1, cleanCol p.2) else p)

/-- Python `in_data.rename(columns={old: new}, inplace=True)`: every column
labelled `old` is relabelled `new`. -/
def renameCol (old new : String) (df : Df) : Df :=
  df.map (fun p => if p.1 == old then (new, p.2) else p)

/-- One iteration of the header-standardising loop of `prep_input`
(lines 35–42 of `train_and_test.py`) for the snapshot column name `col`:
replace spaces in the values if the column has object dtype, then rename the
header if it contains a space before its last character. -/
def stepClean (df : Df) (col : String) : Df :=
  let df1 := if objDtype df col then valReplace df col else df
  if hasSpaceBeforeLast col then renameCol col (cleanHeaderName col) df1 else df1

/-- The whole header-standardising loop: iterate `stepClean` over the
snapshot `list(in_data.columns)` taken before the loop starts. -/
def prepClean (df : Df) : Df :=
  (df.map Prod.fst).foldl stepClean df

/-- The cleaning `prepClean` performs on a single entry, used to state what
the loop does: the header is renamed exactly when it has a space before its
last character, and object values have spaces replaced. -/
def cleanEntry (p : String × Col) : String × Col :=
  (if hasSpaceBeforeLast p.1 then cleanHeaderName p.1 else p.1, cleanCol p.2)

/-- Name part of `cleanEntry`. -/
def cleanNameFn (s : String) : String :=
  if hasSpaceBeforeLast s then cleanHeaderName s else s

/-- Separation condition on two headers under which the name-keyed loop
operations act on the intended single column: distinct headers whose cleaned
forms do not collide with later raw headers. -/
abbrev nameSep (a b : String) : Prop := a ≠ b ∧ cleanNameFn a ≠ b

/-! ## Errors raised by `prep_input` -/

/-- Errors the `prep_input` path can raise: a pandas `KeyError` for a missing
column label, and the scikit-learn `ValueError` raised by
`train_test_split` when a partition would be empty. -/
inductive PrepErr where
  | keyError (col : String)
  | valueError
deriving DecidableEq

/-- pandas label lookup `df[col]` (first matching column). -/
def lookupCol (df : Df) (col : String) : Option Col :=
  (df.find? (fun p => p.1 == col)).map Prod.snd

/-- pandas `in_data[in_cols]`: select the requested columns, in request
order; a missing label raises `KeyError`. -/
def selectCols (df : Df) : List String → Except PrepErr Df
  | [] => .ok []
  | c :: cs =>
    match lookupCol df c with
    | none => .error (.keyError c)
    | some v => (selectCols df cs).map (fun rest => (c, v) :: rest)

/-- Row count of a dataframe (length of its first column). -/
def nRows : Df → Nat
  | [] => 0
  | p :: _ => colLen p.2

/-! ## `train_test_split` (scikit-learn), seeded with `random_state=101`

The seeded numpy shuffle inside `ShuffleSplit` is modelled as an explicit
deterministic permutation of the row indices: indices are keyed by a linear
congruential generator seeded from `random_state` and sorted by key.  The
pipeline relies only on the shuffle being a permutation that is a function of
the seed and the row count, which this model reproduces exactly.
-/

/-- Linear congruential step (glibc constants), modelling the seeded PRNG. -/
def lcg (s : Nat) : Nat := (1103515245 * s + 12345) % 2147483648

/-- Pseudo-random sort key for row index `i` under `seed`. -/
def keyOf (seed i : Nat) : Nat := lcg (seed + 2654435761 * i)

/-- Insertion into a key-sorted list of (key, index) pairs. -/
def insertKeyed (x : Nat × Nat) : List (Nat × Nat) → List (Nat × Nat)
  | [] => [x]
  | y :: ys => if x.1 ≤ y.1 then x :: y :: ys else y :: insertKeyed x ys

/-- Insertion sort of (key, index) pairs by key. -/
def sortKeyed : List (Nat × Nat) → List (Nat × Nat)
  | [] => []
  | x :: xs => insertKeyed x (sortKeyed xs)

/-- The deterministic permutation of `range n` produced by the seeded
shuffle: sort the indices by their pseudo-random keys. -/
def permutation (seed n : Nat) : List Nat :=
  (sortKeyed ((List.range n).map (fun i => (keyOf seed i, i)))).map Prod.snd

/-- Ceiling of a rational, computably (`⌈q⌉`). -/
def ceilQ (q : ℚ) : ℤ := -((-q.num).fdiv (q.den : ℤ))

/-- scikit-learn `_validate_shuffle_split`: for a float `test_size`, the test
partition has `ceil(n * test_size)` rows. -/
def nTestOf (n : Nat) (p : ℚ) : Nat := (ceilQ ((n : ℚ) * p)).toNat

/-- scikit-learn `train_test_split(..., test_size=p, random_state=seed)` on
`n` rows: returns the (train indices, test indices) partition of
`range n`, or the `ValueError` scikit-learn raises when a partition would be
empty.  Test rows are the first `n_test` entries of the shuffled index list,
train rows are the rest. -/
def train_test_split (n : Nat) (p : ℚ) (seed : Nat) : Except PrepErr (List Nat × List Nat) :=
  if nTestOf n p = 0 ∨ n - nTestOf n p = 0 then .error .valueError
  else
    .ok ((permutation seed n).drop (nTestOf n p),
      (permutation seed n).take (nTestOf n p))

/-- Result of a successful `prep_input` call: the X dataframe, the Y column,
and the train/test row-index partition produced by `train_test_split`. -/
structure PrepResult where
  xtr : Df
  ytr : Col
  trainIdx : List Nat
  testIdx : List Nat
deriving DecidableEq

/-- `prep_input(in_data, in_cols, test_prop)` (lines 22–57 of
`train_and_test.py`).  The first component of the returned pair is the
caller's dataframe after the call: the header-standardising loop mutates
`in_data` in place, while the later column selection only rebinds the local
name, so the caller observes exactly `prepClean df`.  The second component is
the function's returned value: select the requested columns (pandas raises
`KeyError` on a missing label), take `mean_no2` as the dependent column
(`KeyError` when absent), drop it from the features, and split the rows with
`train_test_split(..., test_size=p, random_state=101)`. -/
def prep_input (df : Df) (in_cols : List String) (p : ℚ) :
    Df × Except PrepErr PrepResult :=
  (prepClean df,
    match selectCols (prepClean df) in_cols with
    | .error e => .error e
    | .ok sel =>
      match lookupCol sel ("mean_no2") with
      | none => .error (.keyError ("mean_no2"))
      | some y =>
        match train_test_split (nRows sel) p 101 with
        | .error e => .error e
        | .ok (tr, te) =>
          .ok ⟨sel.filter (fun e => !(e.1 == ("mean_no2"))), y, tr, te⟩)

/-! ## `prep_output`: the run-directory allocator

The filesystem state is the contents of the `MODEL_RUNS` folder (created
empty on first use), each entry a name that is either a directory or a file.
Paths are modelled relative to `MODEL_RUNS`; the source returns
`main_folder + '\\MODEL_RUNS\\' + name`, a bijective decoration of the name.
The unbounded `while` loop of the source is modelled with fuel
`len(run_dirs) + 1`; running out of fuel is a distinguished error that the
source loop would reach only by running forever.
-/

/-- An entry of the `MODEL_RUNS` folder. -/
structure FsEntry where
  name : String
  isDir : Bool
deriving DecidableEq

/-- Errors on the `prep_output` path: Python `IndexError` from
`i.split()[-1]` on an all-whitespace name, `FileExistsError` from
`os.makedirs` on an existing path, and exhaustion of the loop fuel. -/
inductive FsErr where
  | indexError
  | fileExists
  | loopLimit
deriving DecidableEq

/-- Whether `pat` occurs at the start of `l`. -/
def leadMatch : List Char → List Char → Bool
  | [], _ => true
  | _ :: _, [] => false
  | a :: as, b :: bs => a == b && leadMatch as bs

/-- Whether `pat` occurs anywhere in `l` (Python substring `in`). -/
def subListChars (pat : List Char) : List Char → Bool
  | [] => pat.isEmpty
  | l@(_ :: cs) => leadMatch pat l || subListChars pat cs

/-- Python `'Run' in t`. -/
def containsRun (t : String) : Bool := subListChars ("Run").data t.data

/-- Whitespace tokenising, accumulator-style: Python `s.split()`. -/
def tokensAux (cur : List Char) : List Char → List (List Char)
  | [] => if cur = [] then [] else [cur.reverse]
  | c :: cs =>
    if c.isWhitespace then
      (if cur = [] then tokensAux [] cs else cur.reverse :: tokensAux [] cs)
    else tokensAux (c :: cur) cs

/-- Python `s.split()[-1]`: `none` is the `IndexError` case (no tokens). -/
def lastToken (s : String) : Option String :=
  ((tokensAux [] s.data).map String.mk).getLast?

/-- Python `[i for i in subs if 'Run' in i.split()[-1]]`, left to right, with
the `IndexError` a raised exception. -/
def runDirsOf : List String → Except FsErr (List String)
  | [] => .ok []
  | i :: rest =>
    match lastToken i with
    | none => .error .indexError
    | some t => (runDirsOf rest).map (fun r => if containsRun t then i :: r else r)

/-- Python `'Run%s' % num`. -/
def runName (num : Nat) : String := ("Run") ++ Nat.repr num

/-- The `while not stop` loop of `prep_output`: starting from `num`, find the
first run number whose name is not in `run_dirs`, within `fuel` attempts. -/
def findFreeNum (rds : List String) : Nat → Nat → Option Nat
  | 0, _ => none
  | fuel + 1, num => if runName num ∈ rds then findFreeNum rds fuel (num + 1) else some num

/-- `prep_output(main_folder)` (lines 60–88 of `train_and_test.py`) acting on
the contents of `MODEL_RUNS`: list the sub-directories, keep those whose last
whitespace token contains `Run`, find the first free `Run#` name, and
`os.makedirs` it (raising `FileExistsError` if the path exists as a file or
directory).  On success, returns the fresh name and the new folder state. -/
def prep_output (st : List FsEntry) : Except FsErr (String × List FsEntry) :=
  match runDirsOf ((st.filter (fun e => e.isDir)).map FsEntry.name) with
  | .error e => .error e
  | .ok rds =>
    match findFreeNum rds (rds.length + 1) 1 with
    | none => .error .loopLimit
    | some num =>
      let dn := runName num
      if st.any (fun e => e.name == dn) then .error .fileExists
      else .ok (dn, st ++ [⟨dn, true⟩])

/-- `N` sequential calls of `prep_output`, threading the folder state; the
first raised error aborts the sequence. -/
def prepOutputN : Nat → List FsEntry → Except FsErr (List String × List FsEntry)
  | 0, st => .ok ([], st)
  | n + 1, st =>
    match prep_output st with
    | .error e => .error e
    | .ok (p, st₁) =>
      match prepOutputN n st₁ with
      | .error e => .error e
      | .ok (ps, st₂) => .ok (p :: ps, st₂)

/-! ## `train_xgb`: GridSearchCV over the hyperparameter grid

`GridSearchCV(xgb_model, param_grid, cv=k, scoring=scoring, refit=True)`
enumerates the Cartesian product of the grid's value lists, scores each
configuration by `k`-fold cross-validation (mean of the fold scores; the
string scorers are all higher-is-better), and selects the first configuration
attaining the maximal mean test score (`best_index_` is `numpy.argmax`, the
first occurrence of the maximum).  The data-dependent fitting and scoring of
one configuration is abstracted into a deterministic scoring function
`cvScore k`, so the search orchestration itself is explicit.
-/

/-- Cartesian product of the grid's value lists, in `itertools.product`
enumeration order (last list varies fastest). -/
def cartProd : List (List ℚ) → List (List ℚ)
  | [] => [[]]
  | vs :: rest => (vs.map (fun v => (cartProd rest).map (v :: ·))).flatten

/-- Maximum of a list of scores (`numpy.max`; junk value on `[]`). -/
def listMax : List ℚ → ℚ
  | [] => 0
  | x :: xs => xs.foldl max x

/-- `numpy.argmax`: index of the first occurrence of the maximum. -/
def argmaxFirst (l : List ℚ) : Nat := List.indexOf (listMax l) l

/-- What `train_xgb` returns of the fitted `GridSearchCV` object:
`cv_results_` (one row of (parameter point, mean test score) per evaluated
configuration), `best_index_`, `best_params_` and `best_score_`. -/
structure GridSearchResult where
  cv_results : List (List ℚ × ℚ)
  best_index : Nat
  best_params : List ℚ
  best_score : ℚ
deriving DecidableEq

/-- The `GridSearchCV(...).fit` call: evaluate every point of the grid's
Cartesian product and select the best scorer, first-wins on ties. -/
def gridSearchFit (grid : List (String × List ℚ)) (cvScore : List ℚ → ℚ) :
    GridSearchResult :=
  let configs := cartProd (grid.map Prod.snd)
  let scores := configs.map cvScore
  let bi := argmaxFirst scores
  { cv_results := configs.map (fun c => (c, cvScore c))
    best_index := bi
    best_params := configs.getD bi []
    best_score := scores.getD bi 0 }

/-- `train_xgb(X_train, y_train, param_grid, k, scoring)` (lines 144–171):
a thin wrapper running the grid search with `k`-fold cross-validated scoring;
`cvScore k c` is the mean CV score the library assigns to configuration `c`
on the (fixed) training data. -/
def train_xgb (grid : List (String × List ℚ)) (k : Nat)
    (cvScore : Nat → List ℚ → ℚ) : GridSearchResult :=
  gridSearchFit grid (cvScore k)

/-! ## `test_metrics`: R² and mean squared error

`sklearn.metrics.r2_score` and `sklearn.metrics.mean_squared_error` over
exact rationals.  `r2_score` returns NaN (modelled `none`) with fewer than
two samples; with `ss_res = 0` it returns `1.0` even for a constant target,
and with `ss_res ≠ 0 = ss_tot` it returns `0.0`.
-/

/-- Mean of a list of rationals. -/
def meanQ (l : List ℚ) : ℚ := l.sum / (l.length : ℚ)

/-- Pointwise squared errors of a prediction against the ground truth. -/
def sqErrors (yt yp : List ℚ) : List ℚ :=
  List.zipWith (fun a b => (a - b) ^ 2) yt yp

/-- `sklearn.metrics.mean_squared_error`. -/
def mean_squared_error (yt yp : List ℚ) : ℚ := meanQ (sqErrors yt yp)

/-- `sklearn.metrics.r2_score`; `none` models the NaN returned (with an
`UndefinedMetricWarning`) when there are fewer than two samples. -/
def r2_score (yt yp : List ℚ) : Option ℚ :=
  if yt.length < 2 then none
  else
    let num := (sqErrors yt yp).sum
    let den := (yt.map (fun a => (a - meanQ yt) ^ 2)).sum
    if num = 0 then some 1
    else if den = 0 then some 0
    else some (1 - num / den)

/-- `test_metrics(y_test, prediction)` (lines 174–187): computes and logs
`[r2, mse]`. -/
def test_metrics (yt yp : List ℚ) : Option ℚ × ℚ :=
  (r2_score yt yp, mean_squared_error yt yp)

/-! ## `train_and_run`: stage sequencing and artifact persistence

What matters for the error-handling claims is the order in which artifacts
are written to the run directory and the fact that `shap_analytics` (the
final stage) is called with no exception handling.  Artifacts already written
are files on disk: they survive a later exception.  The outcome of the
SHAP library calls is environment-dependent and is abstracted into a flag.
-/

/-- Artifacts `train_and_run` writes into the run directory, in program
order. -/
inductive Artifact where
  | xTrainCsv
  | crossCorrPng
  | modelTestPng
  | featureImportancePng
  | hyperParamsCsv
  | hyperParamPng (param : String)
  | bestEstimatorPkl
  | shapDotPng
  | shapBarPng
deriving DecidableEq

/-- The single runtime error class modelled for the orchestration: a failure
inside the SHAP feature-attribution stage. -/
inductive RunErr where
  | explainabilityError
deriving DecidableEq

/-- `shap_analytics(model, X_train, out_folder)` (lines 234–248): computes
SHAP values and saves two summary plots; any failure inside the library calls
escapes as an exception and nothing is saved.  `shapOk` abstracts whether the
library calls succeed. -/
def shap_analytics (shapOk : Bool) : List Artifact × Option RunErr :=
  if shapOk then ([.shapDotPng, .shapBarPng], none)
  else ([], some .explainabilityError)

/-- `plot_hyperparams` (lines 277–310): one score-distribution plot per tuned
parameter, skipping `booster`. -/
def plotHyperparams (params : List String) : List Artifact :=
  (params.filter (fun s => !(s == ("booster")))).map Artifact.hyperParamPng

/-- `train_and_run` (lines 313–370), from the point where training inputs
are prepared: artifacts are written in program order (`X_train.csv`, the
cross-correlation plot, the prediction plot, the feature-importance plot, the
hyper-parameter csv and plots, the pickled best estimator), and then
`shap_analytics` runs as the final stage with no surrounding `try/except`:
its error, if any, is the call's outcome.  The first component is the list of
artifacts on disk when the call ends. -/
def train_and_run (params : List String) (shapOk : Bool) :
    List Artifact × Option RunErr :=
  let pre := [Artifact.xTrainCsv, Artifact.crossCorrPng, Artifact.modelTestPng,
      Artifact.featureImportancePng, Artifact.hyperParamsCsv]
    ++ plotHyperparams params ++ [Artifact.bestEstimatorPkl]
  match shap_analytics shapOk with
  | (sa, e) => (pre ++ sa, e)

/-- Whether a `prep_input` outcome is a raised `KeyError`. -/
def isKeyError : Except PrepErr PrepResult → Bool
  | .error (.keyError _) => true
  | _ => false

deriving instance DecidableEq for Except

/-! ## Theorems -/

theorem sqErrors_self (y : List ℚ) : sqErrors y y = List.replicate y.length 0 := by
  induction y with
  | nil => rfl
  | cons a t ih =>
    simp only [sqErrors, List.zipWith_cons_cons, sub_self, List.length_cons,
      List.replicate_succ] at ih ⊢
    rw [ih]
    norm_num

/-- C9 (amended): on at least two samples, a perfect prediction scores
R² exactly 1 and mean squared error exactly 0. -/
theorem c9_perfect_prediction (y : List ℚ) (h : 2 ≤ y.length) :
    test_metrics y y = (some 1, 0) := by
  have hs : sqErrors y y = List.replicate y.length 0 := sqErrors_self y
  have hsum : (sqErrors y y).sum = 0 := by simp [hs]
  have hlen : ¬ y.length < 2 := not_lt.2 h
  simp [test_metrics, r2_score, mean_squared_error, meanQ, hlen, hsum, hs]

/-- C9 witness: the amended theorem applied to the concrete ground truth
`[1, 2]`. -/
theorem c9_witness : test_metrics [(1 : ℚ), 2] [(1 : ℚ), 2] = (some 1, 0) :=
  c9_perfect_prediction [(1 : ℚ), 2] (by decide)

unseal Rat.add Rat.sub Rat.mul Rat.inv in
/-- C9 counterexample: the claim quantifies over every ground-truth vector,
but on the one-sample vector `[5]` the code returns an R² of NaN (with an
`UndefinedMetricWarning`), not 1.0, because `r2_score` is not defined with
fewer than two samples. -/
theorem c9_counterexample : test_metrics [(5 : ℚ)] [(5 : ℚ)] ≠ (some 1, 0) := by
  decide

/-- C7 (amended): when the SHAP attribution stage fails, `train_and_run`
has no exception handler around `shap_analytics`, so the failure propagates
out of the run as a fatal error; every artifact written before the
attribution stage — in particular the pickled best estimator — is already on
disk and remains valid. -/
theorem c7_shap_failure_propagates (params : List String) :
    (train_and_run params false).2 = some RunErr.explainabilityError ∧
    Artifact.bestEstimatorPkl ∈ (train_and_run params false).1 ∧
    (train_and_run params false).1
      = [Artifact.xTrainCsv, Artifact.crossCorrPng, Artifact.modelTestPng,
          Artifact.featureImportancePng, Artifact.hyperParamsCsv]
        ++ plotHyperparams params ++ [Artifact.bestEstimatorPkl] := by
  refine ⟨rfl, ?_, by simp [train_and_run, shap_analytics]⟩
  simp [train_and_run, shap_analytics]

/-- C7 counterexample: the claim says a SHAP failure is logged rather than
propagated and the run completes; but on a failing SHAP stage (with the
pipeline's five tuned parameters) the run's outcome is the propagated
explainability error, not a completed run — even though the pickled model
written beforehand is still among the persisted artifacts. -/
theorem c7_counterexample :
    (train_and_run [("gamma"), ("eta"), ("reg_lambda"), ("colsample_bytree"),
        ("max_depth")] false).2 ≠ none ∧
    Artifact.bestEstimatorPkl ∈ (train_and_run [("gamma"), ("eta"),
        ("reg_lambda"), ("colsample_bytree"), ("max_depth")] false).1 := by
  decide

/-- C2: with the seed fixed at 101 inside `prep_input`, the train/test
partition is a pure function of the table, the requested columns and the
test fraction: two successful runs on the same inputs return identical
train-row and test-row index lists. -/
theorem c2_reproducible_split (df : Df) (cols : List String) (p : ℚ)
    (h0 : 0 < p) (h1 : p < 1) (r₁ r₂ : PrepResult)
    (e₁ : (prep_input df cols p).2 = .ok r₁)
    (e₂ : (prep_input df cols p).2 = .ok r₂) :
    r₁.trainIdx = r₂.trainIdx ∧ r₁.testIdx = r₂.testIdx := by
  have h : r₁ = r₂ := Except.ok.inj (e₁.symm.trans e₂)
  subst h
  exact ⟨rfl, rfl⟩

theorem lookupCol_eq_none_iff {df : Df} {c : String} :
    lookupCol df c = none ↔ c ∉ df.map Prod.fst := by
  simp only [lookupCol, Option.map_eq_none', List.find?_eq_none, beq_iff_eq,
    List.mem_map, not_exists, not_and]

theorem lookupCol_some_mem {df : Df} {c : String} {v : Col}
    (h : lookupCol df c = some v) : (c, v) ∈ df := by
  simp only [lookupCol, Option.map_eq_some'] at h
  obtain ⟨e, he, hv⟩ := h
  have hm : e ∈ df := List.mem_of_find?_eq_some he
  have hp := List.find?_some he
  have h1 : e.1 = c := by simpa using hp
  have h2 : (c, v) = e := by
    cases e
    simp_all
  rwa [h2]

theorem selectCols_error_shape {df : Df} {cols : List String} {er : PrepErr}
    (h : selectCols df cols = .error er) : ∃ c, er = PrepErr.keyError c := by
  induction cols with
  | nil => simp [selectCols] at h
  | cons c cs ih =>
    simp only [selectCols] at h
    cases hl : lookupCol df c with
    | none =>
      rw [hl] at h
      exact ⟨c, (Except.error.inj h).symm⟩
    | some v =>
      rw [hl] at h
      cases hr : selectCols df cs with
      | error e' =>
        rw [hr] at h
        simp only [Except.map] at h
        exact ih (by rw [hr, Except.error.inj h])
      | ok rest =>
        rw [hr] at h
        simp [Except.map] at h

theorem selectCols_error_of_missing {df : Df} {cols : List String}
    (h : ∃ c ∈ cols, lookupCol df c = none) :
    ∃ e, selectCols df cols = .error (PrepErr.keyError e) := by
  induction cols with
  | nil => simp at h
  | cons c cs ih =>
    obtain ⟨c', hc', hnone⟩ := h
    cases hl : lookupCol df c with
    | none => exact ⟨c, by simp [selectCols, hl]⟩
    | some v =>
      have hcs : c' ∈ cs := by
        rcases List.mem_cons.1 hc' with h' | h'
        · rw [h'] at hnone
          rw [hl] at hnone
          cases hnone
        · exact h'
      obtain ⟨e, he⟩ := ih ⟨c', hcs, hnone⟩
      exact ⟨e, by simp [selectCols, hl, he, Except.map]⟩

theorem selectCols_ok_mem {df : Df} {cols : List String} {sel : Df}
    (h : selectCols df cols = .ok sel) :
    ∀ e ∈ sel, e.1 ∈ cols ∧ lookupCol df e.1 = some e.2 := by
  induction cols generalizing sel with
  | nil =>
    simp only [selectCols] at h
    cases h
    intro e he
    cases he
  | cons c cs ih =>
    simp only [selectCols] at h
    cases hl : lookupCol df c with
    | none => rw [hl] at h; cases h
    | some v =>
      rw [hl] at h
      cases hr : selectCols df cs with
      | error e' => rw [hr] at h; simp [Except.map] at h
      | ok rest =>
        rw [hr] at h
        simp only [Except.map] at h
        cases h
        intro e he
        rcases List.mem_cons.1 he with h' | h'
        · rw [h']
          exact ⟨List.mem_cons_self _ _, hl⟩
        · obtain ⟨h1, h2⟩ := ih hr e h'
          exact ⟨List.mem_cons_of_mem _ h1, h2⟩

/-- C6: whenever the dependent column `mean_no2` is absent from the cleaned
table, or any requested column is missing after header cleaning, `prep_input`
raises a pandas `KeyError` (the concrete exception realising the spec's
`ConfigurationError` class for bad/missing columns), so the call aborts
before the train/test split or any training work. -/
theorem c6_missing_column_aborts (df : Df) (cols : List String) (p : ℚ)
    (h : ("mean_no2") ∉ (prepClean df).map Prod.fst ∨
      ∃ c ∈ cols, c ∉ (prepClean df).map Prod.fst) :
    isKeyError (prep_input df cols p).2 = true := by
  have hright : (∃ c ∈ cols, c ∉ (prepClean df).map Prod.fst) →
      isKeyError (prep_input df cols p).2 = true := by
    intro ⟨c, hc, hmiss⟩
    obtain ⟨e, he⟩ := selectCols_error_of_missing
      ⟨c, hc, lookupCol_eq_none_iff.2 hmiss⟩
    simp only [prep_input, he]
    rfl
  rcases h with h | h
  · by_cases hmem : ("mean_no2") ∈ cols
    · exact hright ⟨("mean_no2"), hmem, h⟩
    · cases hsel : selectCols (prepClean df) cols with
      | error er =>
        obtain ⟨c, hc⟩ := selectCols_error_shape hsel
        rw [hc] at hsel
        simp only [prep_input, hsel]
        rfl
      | ok sel =>
        cases hy : lookupCol sel ("mean_no2") with
        | none =>
          simp only [prep_input, hsel]
          rw [hy]
          rfl
        | some y =>
          exfalso
          have hmem2 := lookupCol_some_mem hy
          have hsome := (selectCols_ok_mem hsel _ hmem2).2
          rw [lookupCol_eq_none_iff.2 h] at hsome
          cases hsome
  · exact hright h

/-- C6 witness: on a table with a single column `x` and requested columns
`[mean_no2]`, `prep_input` raises a `KeyError`. -/
theorem c6_witness :
    isKeyError (prep_input [(("x"), Col.flt [1])] [("mean_no2")]
      (mkRat 1 2)).2 = true :=
  c6_missing_column_aborts _ _ _ (by decide)

unseal Rat.add Rat.sub Rat.mul Rat.inv in
/-- C2 witness: two runs of `prep_input` on a concrete three-row table with
test fraction 1/3 both produce train rows `[1, 0]` and test row `[2]`. -/
theorem c2_witness :
    ([1, 0] : List Nat) = [1, 0] ∧ ([2] : List Nat) = [2] :=
  c2_reproducible_split [(("mean_no2"), Col.flt [10, 20, 30])] [("mean_no2")]
    (mkRat 1 3) (by decide) (by decide)
    ⟨[], Col.flt [10, 20, 30], [1, 0], [2]⟩
    ⟨[], Col.flt [10, 20, 30], [1, 0], [2]⟩ (by decide) (by decide)

theorem prep_output_ok {st : List FsEntry} {dn : String} {st' : List FsEntry}
    (h : prep_output st = .ok (dn, st')) :
    dn ∉ st.map FsEntry.name ∧ st' = st ++ [⟨dn, true⟩] := by
  unfold prep_output at h
  split at h
  · cases h
  · split at h
    · cases h
    · rename_i rds hrds num hnum
      simp only at h
      split at h
      · cases h
      · rename_i ha
        have h1 := Except.ok.inj h
        have hdn : runName num = dn := congrArg Prod.fst h1
        have hst : st ++ [⟨runName num, true⟩] = st' := congrArg Prod.snd h1
        subst hdn
        subst hst
        refine ⟨?_, rfl⟩
        intro hmem
        apply ha
        rw [List.any_eq_true]
        obtain ⟨e, he, hname⟩ := List.mem_map.1 hmem
        exact ⟨e, he, by simp [hname]⟩

theorem prepOutputN_ok {n : Nat} : ∀ {st ps st'},
    prepOutputN n st = .ok (ps, st') →
    ps.Nodup ∧ (∀ q ∈ ps, q ∉ st.map FsEntry.name) ∧
      ∀ x ∈ st.map FsEntry.name, x ∈ st'.map FsEntry.name := by
  induction n with
  | zero =>
    intro st ps st' h
    simp only [prepOutputN] at h
    have h1 : ([] : List String) = ps ∧ st = st' := by
      have := Except.ok.inj h
      exact ⟨congrArg Prod.fst this, congrArg Prod.snd this⟩
    obtain ⟨hps, hst⟩ := h1
    subst hps
    subst hst
    exact ⟨List.nodup_nil, by simp, fun x hx => hx⟩
  | succ n ih =>
    intro st ps st' h
    simp only [prepOutputN] at h
    split at h
    · cases h
    · rename_i p st₁ h1
      split at h
      · cases h
      · rename_i ps' st₂ h2
        have h3 := Except.ok.inj h
        have hps : p :: ps' = ps := congrArg Prod.fst h3
        have hst : st₂ = st' := congrArg Prod.snd h3
        subst hps
        subst hst
        obtain ⟨hfresh, happ⟩ := prep_output_ok h1
        obtain ⟨hnd, havoid, hmono⟩ := ih h2
        have hst₁ : st₁.map FsEntry.name = st.map FsEntry.name ++ [p] := by
          rw [happ]; simp
        refine ⟨?_, ?_, ?_⟩
        · refine List.nodup_cons.2 ⟨?_, hnd⟩
          intro hp
          have hv := havoid p hp
          rw [hst₁] at hv
          exact hv (by simp)
        · intro q hq
          rcases List.mem_cons.1 hq with hq' | hq'
          · rw [hq']; exact hfresh
          · intro hmem
            exact (havoid q hq') (by rw [hst₁]; exact List.mem_append_left _ hmem)
        · intro x hx
          apply hmono
          rw [hst₁]
          exact List.mem_append_left _ hx

/-- C3: a successful `prep_output` call returns a run-directory name that did
not exist (as a file or directory) under `MODEL_RUNS` before the call, and it
only adds that one new directory (nothing is overwritten); consequently `N`
successful sequential calls return `N` pairwise distinct run directories. -/
theorem c3_run_director :
    (∀ (st : List FsEntry) (dn : String) (st' : List FsEntry),
      prep_output st = .ok (dn, st') →
        dn ∉ st.map FsEntry.name ∧ st' = st ++ [⟨dn, true⟩]) ∧
    ∀ (n : Nat) (st : List FsEntry) (ps : List String) (st' : List FsEntry),
      prepOutputN n st = .ok (ps, st') → ps.Nodup :=
  ⟨fun _ _ _ h => prep_output_ok h,
   fun _ _ _ _ h => (prepOutputN_ok h).1⟩

/-- C3 witness: from an empty `MODEL_RUNS` folder, the first call creates a
fresh `Run1`, and two sequential calls create the distinct `Run1`, `Run2`. -/
theorem c3_witness :
    (("Run1") ∉ ([] : List FsEntry).map FsEntry.name ∧
      [(⟨("Run1"), true⟩ : FsEntry)] = [] ++ [⟨("Run1"), true⟩]) ∧
    ([("Run1"), ("Run2")] : List String).Nodup :=
  ⟨c3_run_director.1 [] ("Run1") [⟨("Run1"), true⟩] (by decide),
   c3_run_director.2 2 [] [("Run1"), ("Run2")]
     [⟨("Run1"), true⟩, ⟨("Run2"), true⟩] (by decide)⟩

theorem cartProd_length (ls : List (List ℚ)) :
    (cartProd ls).length = (ls.map List.length).prod := by
  induction ls with
  | nil => rfl
  | cons vs rest ih =>
    calc ((vs.map (fun v => (cartProd rest).map (v :: ·))).flatten).length
        = ((vs.map (fun v => (cartProd rest).map (v :: ·))).map List.length).sum :=
          List.length_flatten _
      _ = (vs.map (fun _ => (cartProd rest).length)).sum := by
          simp [List.map_map, Function.comp_def, List.length_map]
      _ = vs.length * (cartProd rest).length := by
          rw [List.map_const', List.sum_const_nat]
      _ = vs.length * (rest.map List.length).prod := by rw [ih]
      _ = ((vs :: rest).map List.length).prod := by simp

theorem mem_cartProd {ls : List (List ℚ)} {c : List ℚ} :
    c ∈ cartProd ls ↔ List.Forall₂ (fun v vs => v ∈ vs) c ls := by
  induction ls generalizing c with
  | nil =>
    simp only [cartProd, List.mem_singleton]
    constructor
    · rintro rfl
      exact List.Forall₂.nil
    · intro h
      cases h
      rfl
  | cons vs rest ih =>
    simp only [cartProd, List.mem_flatten, List.mem_map]
    constructor
    · rintro ⟨l, ⟨v, hv, rfl⟩, hc⟩
      obtain ⟨t, ht, rfl⟩ := List.mem_map.1 hc
      exact List.Forall₂.cons hv (ih.1 ht)
    · intro h
      cases h with
      | cons hv ht =>
        rename_i v t
        exact ⟨(cartProd rest).map (v :: ·), ⟨v, hv, rfl⟩,
          List.mem_map.2 ⟨t, ih.2 ht, rfl⟩⟩

theorem cartProd_nodup {ls : List (List ℚ)} (h : ∀ l ∈ ls, l.Nodup) :
    (cartProd ls).Nodup := by
  induction ls with
  | nil => simp [cartProd]
  | cons vs rest ih =>
    rw [cartProd, List.nodup_flatten]
    constructor
    · intro l hl
      obtain ⟨v, _, rfl⟩ := List.mem_map.1 hl
      exact (ih (fun l' hl' => h l' (List.mem_cons_of_mem _ hl'))).map
        (fun t t' ht => by injection ht)
    · have hvs : vs.Nodup := h vs (List.mem_cons_self _ _)
      refine List.Pairwise.map _ ?_ hvs
      intro v w hvw
      intro x hx hx'
      obtain ⟨t, _, rfl⟩ := List.mem_map.1 hx
      obtain ⟨t', _, he⟩ := List.mem_map.1 hx'
      injection he with h1 h2
      exact hvw h1.symm

/-- C1: the grid search in `train_xgb` evaluates exactly the Cartesian
product of the grid's value lists: the returned score table has one row per
configuration (`|G|` rows, the product of the list lengths), with no
duplicated configuration (for duplicate-free value lists) and none skipped
(every combination drawn from the value lists appears). -/
theorem c1_exhaustive_grid (grid : List (String × List ℚ)) (k : Nat)
    (cvScore : Nat → List ℚ → ℚ) (hnd : ∀ pr ∈ grid, pr.2.Nodup) :
    (train_xgb grid k cvScore).cv_results.length
        = (grid.map (fun pr => pr.2.length)).prod ∧
    ((train_xgb grid k cvScore).cv_results.map Prod.fst).Nodup ∧
    ∀ c, c ∈ (train_xgb grid k cvScore).cv_results.map Prod.fst ↔
      List.Forall₂ (fun v vs => v ∈ vs) c (grid.map Prod.snd) := by
  have hmap : (train_xgb grid k cvScore).cv_results.map Prod.fst
      = cartProd (grid.map Prod.snd) := by
    simp [train_xgb, gridSearchFit, List.map_map, Function.comp_def]
  refine ⟨?_, ?_, ?_⟩
  · have hlen : (train_xgb grid k cvScore).cv_results.length
        = (cartProd (grid.map Prod.snd)).length := by
      simp [train_xgb, gridSearchFit]
    rw [hlen, cartProd_length, List.map_map]
    rfl
  · rw [hmap]
    refine cartProd_nodup ?_
    intro l hl
    obtain ⟨pr, hpr, rfl⟩ := List.mem_map.1 hl
    exact hnd pr hpr
  · intro c
    rw [hmap]
    exact mem_cartProd

/-- C1 witness: for the concrete grid `{max_depth: [2, 3]}` the score table
has exactly two rows and no duplicated configuration. -/
theorem c1_witness :
    (train_xgb [(("max_depth"), [(2 : ℚ), 3])] 2 (fun _ _ => 0)).cv_results.length
        = ([(("max_depth"), [(2 : ℚ), 3])].map (fun pr => pr.2.length)).prod ∧
    ((train_xgb [(("max_depth"), [(2 : ℚ), 3])] 2
        (fun _ _ => 0)).cv_results.map Prod.fst).Nodup :=
  ⟨(c1_exhaustive_grid [(("max_depth"), [(2 : ℚ), 3])] 2 (fun _ _ => 0)
      (by decide)).1,
   (c1_exhaustive_grid [(("max_depth"), [(2 : ℚ), 3])] 2 (fun _ _ => 0)
      (by decide)).2.1⟩

theorem le_foldl_max (l : List ℚ) (a : ℚ) : a ≤ l.foldl max a := by
  induction l generalizing a with
  | nil => exact le_refl a
  | cons x t ih => exact le_trans (le_max_left a x) (ih (max a x))

theorem mem_le_foldl_max (l : List ℚ) : ∀ (a x : ℚ), x ∈ l → x ≤ l.foldl max a := by
  induction l with
  | nil =>
    intro a x hx
    cases hx
  | cons y t ih =>
    intro a x hx
    rcases List.mem_cons.1 hx with h' | h'
    · rw [h']
      exact le_trans (le_max_right a y) (le_foldl_max t (max a y))
    · exact ih (max a y) x h'

theorem foldl_max_mem (l : List ℚ) : ∀ a : ℚ, l.foldl max a = a ∨ l.foldl max a ∈ l := by
  induction l with
  | nil => intro a; exact Or.inl rfl
  | cons x t ih =>
    intro a
    rcases ih (max a x) with h | h
    · rcases max_choice a x with h' | h'
      · left
        rw [List.foldl_cons, h, h']
      · right
        rw [List.foldl_cons, h, h']
        exact List.mem_cons_self _ _
    · right
      exact List.mem_cons_of_mem _ h

theorem listMax_mem {l : List ℚ} (h : l ≠ []) : listMax l ∈ l := by
  cases l with
  | nil => cases h rfl
  | cons x t =>
    rcases foldl_max_mem t x with h' | h'
    · rw [listMax, h']
      exact List.mem_cons_self _ _
    · exact List.mem_cons_of_mem _ h'

theorem le_listMax {l : List ℚ} {x : ℚ} (hx : x ∈ l) : x ≤ listMax l := by
  cases l with
  | nil => cases hx
  | cons y t =>
    rcases List.mem_cons.1 hx with h' | h'
    · rw [h', listMax]
      exact le_foldl_max t y
    · exact mem_le_foldl_max t y x h'

theorem getD_lt_indexOf_ne {a : ℚ} :
    ∀ (l : List ℚ) (j : Nat), j < List.indexOf a l → l.getD j 0 ≠ a
  | [], j, hj => by simp [List.indexOf] at hj
  | x :: t, j, hj => by
    by_cases hx : x = a
    · rw [List.indexOf_cons_eq t hx] at hj
      cases hj
    · rw [List.indexOf_cons_ne t hx] at hj
      cases j with
      | zero => simpa using hx
      | succ j' => exact getD_lt_indexOf_ne t j' (Nat.lt_of_succ_lt_succ hj)

theorem getD_indexOf_self {l : List ℚ} {a : ℚ} (h : a ∈ l) :
    l.getD (List.indexOf a l) 0 = a := by
  have hlt : List.indexOf a l < l.length := List.indexOf_lt_length.2 h
  rw [List.getD_eq_getElem?_getD, List.getElem?_eq_getElem hlt]
  exact List.getElem_indexOf hlt

/-- C4: the best configuration reported by `train_xgb` scores exactly the
maximum of the mean test scores in the full results table (the string scorer
`r2` is higher-is-better, so the comparison direction is maximisation), and
on ties the first configuration in enumeration order wins: every earlier row
scores strictly below the reported best score, and the reported parameters
are the row at the winning index. -/
theorem c4_best_is_first_max (grid : List (String × List ℚ)) (k : Nat)
    (cvScore : Nat → List ℚ → ℚ) (hne : ∀ pr ∈ grid, pr.2 ≠ []) :
    (train_xgb grid k cvScore).best_score
        ∈ (train_xgb grid k cvScore).cv_results.map Prod.snd ∧
    (∀ s ∈ (train_xgb grid k cvScore).cv_results.map Prod.snd,
        s ≤ (train_xgb grid k cvScore).best_score) ∧
    (∀ j < (train_xgb grid k cvScore).best_index,
        ((train_xgb grid k cvScore).cv_results.map Prod.snd).getD j 0
          ≠ (train_xgb grid k cvScore).best_score) ∧
    (train_xgb grid k cvScore).best_params
        = ((train_xgb grid k cvScore).cv_results.map Prod.fst).getD
            (train_xgb grid k cvScore).best_index [] := by
  have hne' : cartProd (grid.map Prod.snd) ≠ [] := by
    intro hnil
    have hlen := cartProd_length (grid.map Prod.snd)
    rw [hnil] at hlen
    have hpos : 0 < ((grid.map Prod.snd).map List.length).prod := by
      apply List.prod_pos
      intro i hi
      simp only [List.map_map, List.mem_map] at hi
      obtain ⟨pr, hpr, rfl⟩ := hi
      simpa [List.length_pos] using hne pr hpr
    rw [← hlen] at hpos
    simp at hpos
  have hsne : (cartProd (grid.map Prod.snd)).map (cvScore k) ≠ [] := by
    simpa using hne'
  have hsnd : (train_xgb grid k cvScore).cv_results.map Prod.snd
      = (cartProd (grid.map Prod.snd)).map (cvScore k) := by
    simp [train_xgb, gridSearchFit, List.map_map, Function.comp_def]
  have hfst : (train_xgb grid k cvScore).cv_results.map Prod.fst
      = cartProd (grid.map Prod.snd) := by
    simp [train_xgb, gridSearchFit, List.map_map, Function.comp_def]
  have hmem := listMax_mem hsne
  have hself := getD_indexOf_self hmem
  have hbs : (train_xgb grid k cvScore).best_score
      = listMax ((cartProd (grid.map Prod.snd)).map (cvScore k)) := hself
  refine ⟨?_, ?_, ?_, ?_⟩
  · rw [hsnd, hbs]
    exact hmem
  · intro s hs
    rw [hbs]
    rw [hsnd] at hs
    exact le_listMax hs
  · intro j hj
    rw [hsnd, hbs]
    exact getD_lt_indexOf_ne _ j hj
  · rw [hfst]
    rfl

/-- C4 witness: on the concrete grid `{max_depth: [2, 3]}` with a constant
scorer, the reported best score is in the table and bounds every row. -/
theorem c4_witness :
    (train_xgb [(("max_depth"), [(2 : ℚ), 3])] 2 (fun _ _ => 0)).best_score
        ∈ (train_xgb [(("max_depth"), [(2 : ℚ), 3])] 2
            (fun _ _ => 0)).cv_results.map Prod.snd ∧
    (train_xgb [(("max_depth"), [(2 : ℚ), 3])] 2 (fun _ _ => 0)).best_params
        = ((train_xgb [(("max_depth"), [(2 : ℚ), 3])] 2
            (fun _ _ => 0)).cv_results.map Prod.fst).getD
              (train_xgb [(("max_depth"), [(2 : ℚ), 3])] 2
                (fun _ _ => 0)).best_index [] :=
  ⟨(c4_best_is_first_max [(("max_depth"), [(2 : ℚ), 3])] 2 (fun _ _ => 0)
      (by decide)).1,
   (c4_best_is_first_max [(("max_depth"), [(2 : ℚ), 3])] 2 (fun _ _ => 0)
      (by decide)).2.2.2⟩

theorem mapFixed {α : Type} {l : List α} {f : α → α}
    (h : ∀ a ∈ l, f a = a) : l.map f = l := by
  induction l with
  | nil => rfl
  | cons x t ih =>
    rw [List.map_cons, h x (List.mem_cons_self _ _),
      ih (fun a ha => h a (List.mem_cons_of_mem _ ha))]

theorem find?_middle (A B : Df) (n : String) (c : Col)
    (hA : ∀ p ∈ A, p.1 ≠ n) :
    (A ++ (n, c) :: B).find? (fun p => p.1 == n) = some (n, c) := by
  induction A with
  | nil => simp [List.find?_cons]
  | cons a A' ih =>
    rw [List.cons_append, List.find?_cons_of_neg, ih]
    · intro p hp
      exact hA p (List.mem_cons_of_mem _ hp)
    · simp [hA a (List.mem_cons_self _ _)]

theorem valReplace_middle (A B : Df) (n : String) (c : Col)
    (hA : ∀ p ∈ A, p.1 ≠ n) (hB : ∀ p ∈ B, p.1 ≠ n) :
    valReplace (A ++ (n, c) :: B) n = A ++ (n, cleanCol c) :: B := by
  unfold valReplace
  rw [List.map_append, List.map_cons]
  rw [mapFixed (fun p hp => by simp [hA p hp])]
  rw [mapFixed (fun p hp => by simp [hB p hp])]
  simp

theorem renameCol_middle (A B : Df) (n nn : String) (c : Col)
    (hA : ∀ p ∈ A, p.1 ≠ n) (hB : ∀ p ∈ B, p.1 ≠ n) :
    renameCol n nn (A ++ (n, c) :: B) = A ++ (nn, c) :: B := by
  unfold renameCol
  rw [List.map_append, List.map_cons]
  rw [mapFixed (fun p hp => by simp [hA p hp])]
  rw [mapFixed (fun p hp => by simp [hB p hp])]
  simp

theorem stepClean_middle (A B : Df) (n : String) (c : Col)
    (hA : ∀ p ∈ A, p.1 ≠ n) (hB : ∀ p ∈ B, p.1 ≠ n) :
    stepClean (A ++ (n, c) :: B) n = A ++ cleanEntry (n, c) :: B := by
  have hobj : objDtype (A ++ (n, c) :: B) n = colIsObj c := by
    unfold objDtype
    rw [find?_middle A B n c hA]
  have hdf1 : (if objDtype (A ++ (n, c) :: B) n then
      valReplace (A ++ (n, c) :: B) n else (A ++ (n, c) :: B))
      = A ++ (n, cleanCol c) :: B := by
    rw [hobj]
    cases c with
    | obj vs =>
      rw [if_pos (show colIsObj (Col.obj vs) = true from rfl)]
      exact valReplace_middle A B n (Col.obj vs) hA hB
    | flt vs =>
      simp [colIsObj, cleanCol]
  show (if hasSpaceBeforeLast n then
      renameCol n (cleanHeaderName n) (if objDtype (A ++ (n, c) :: B) n then
        valReplace (A ++ (n, c) :: B) n else (A ++ (n, c) :: B))
    else (if objDtype (A ++ (n, c) :: B) n then
        valReplace (A ++ (n, c) :: B) n else (A ++ (n, c) :: B)))
      = A ++ cleanEntry (n, c) :: B
  rw [hdf1]
  by_cases hsp : hasSpaceBeforeLast n = true
  · rw [if_pos hsp, renameCol_middle A B n (cleanHeaderName n) (cleanCol c) hA hB]
    simp [cleanEntry, hsp]
  · rw [if_neg hsp]
    simp only [Bool.not_eq_true] at hsp
    simp [cleanEntry, hsp]

theorem foldl_stepClean (B : Df) : ∀ A : Df,
    List.Pairwise nameSep (A.map Prod.fst ++ B.map Prod.fst) →
    (B.map Prod.fst).foldl stepClean (A.map cleanEntry ++ B)
      = A.map cleanEntry ++ B.map cleanEntry := by
  induction B with
  | nil =>
    intro A _
    simp
  | cons e B' ih =>
    intro A h
    obtain ⟨n, c⟩ := e
    have h' : List.Pairwise nameSep (A.map Prod.fst
        ++ (n :: B'.map Prod.fst)) := by simpa using h
    rw [List.pairwise_append] at h'
    obtain ⟨hPA, hPB, hcross⟩ := h'
    rw [List.pairwise_cons] at hPB
    obtain ⟨hn, hPB'⟩ := hPB
    have hmidA : ∀ p ∈ A.map cleanEntry, p.1 ≠ n := by
      intro p hp
      obtain ⟨a, ha, rfl⟩ := List.mem_map.1 hp
      exact (hcross a.1 (List.mem_map_of_mem Prod.fst ha)
        n (List.mem_cons_self _ _)).2
    have hmidB : ∀ p ∈ B', p.1 ≠ n := by
      intro p hp hpn
      exact (hn p.1 (List.mem_map_of_mem Prod.fst hp)).1 hpn.symm
    rw [List.map_cons, List.foldl_cons,
      stepClean_middle (A.map cleanEntry) B' n c hmidA hmidB]
    have hre : A.map cleanEntry ++ cleanEntry (n, c) :: B'
        = (A ++ [(n, c)]).map cleanEntry ++ B' := by simp
    rw [hre, ih (A ++ [(n, c)]) (by simpa using h)]
    simp

theorem prepClean_eq {df : Df}
    (h : List.Pairwise nameSep (df.map Prod.fst)) :
    prepClean df = df.map cleanEntry := by
  have hfold := foldl_stepClean df [] (by simpa using h)
  simpa [prepClean] using hfold

/-- C8 (amended): on a table whose headers are pairwise distinct and remain
distinct after cleaning, the header-standardising loop of `prep_input` maps
every column through `cleanEntry`: a header containing a space strictly
before its last character is renamed (spaces become underscores, one
resulting trailing underscore is removed), a header whose only space is its
final character is left unchanged (the code tests `' ' in str(col)[:-1]`,
which ignores a trailing space), and every space in the string values of an
object-dtype column becomes an underscore. -/
theorem c8_header_cleaning (df : Df)
    (h : List.Pairwise nameSep (df.map Prod.fst)) :
    prepClean df = df.map cleanEntry :=
  prepClean_eq h

/-- C8 witness: a header with an internal space and an object column with a
space in a value are both cleaned. -/
theorem c8_witness :
    prepClean [(("a b"), Col.obj [("x y")]), (("mean_no2"), Col.flt [1])]
      = [(("a_b"), Col.obj [("x_y")]), (("mean_no2"), Col.flt [1])] := by
  rw [c8_header_cleaning _ (by decide)]
  decide

/-- C8 counterexample: the claim says every header containing trailing
whitespace has it replaced, but the header `"ab "` — whose only space is its
final character — passes through the cleaning loop unchanged and still ends
in a space, because the code only tests for a space before the last
character. -/
theorem c8_counterexample :
    prepClean [(("ab "), Col.flt [1])] = [(("ab "), Col.flt [1])] ∧
    (("ab ") : String).data.getLast? = some ' ' := by
  decide

/-- C10 (amended): the header-standardising loop mutates the caller's
dataframe in place (the later column selection only rebinds a local name), so
after any call the caller's own table is exactly the cleaned table: every
object-dtype column has spaces in its string values replaced by underscores
and every header with a space before its last character has been renamed.
The caller's table is left unchanged precisely when no column needs
cleaning (for instance on an already-clean table), not never. -/
theorem c10_caller_mutation (df : Df) (cols : List String) (p : ℚ)
    (h : List.Pairwise nameSep (df.map Prod.fst)) :
    (prep_input df cols p).1 = df.map cleanEntry :=
  prepClean_eq h

/-- C10 witness: the caller of `prep_input` observes the cleaned table. -/
theorem c10_witness :
    (prep_input [(("a b"), Col.obj [("x y")]), (("mean_no2"), Col.flt [2])]
        [("mean_no2")] (mkRat 1 2)).1
      = [(("a_b"), Col.obj [("x_y")]), (("mean_no2"), Col.flt [2])] := by
  rw [c10_caller_mutation _ _ _ (by decide)]
  decide

/-- C10 counterexample: the claim asserts the caller's table is never left
unchanged, but on a table with no spaces anywhere the in-place cleaning is a
no-op and the caller's dataframe after the call is exactly the input. -/
theorem c10_counterexample :
    (prep_input [(("mean_no2"), Col.flt [1, 2, 3])] [("mean_no2")]
      (mkRat 1 3)).1 = [(("mean_no2"), Col.flt [1, 2, 3])] := by
  decide

theorem insertKeyed_perm (x : Nat × Nat) (l : List (Nat × Nat)) :
    List.Perm (insertKeyed x l) (x :: l) := by
  induction l with
  | nil => exact List.Perm.refl _
  | cons y ys ih =>
    unfold insertKeyed
    by_cases h : x.1 ≤ y.1
    · rw [if_pos h]
    · rw [if_neg h]
      exact (ih.cons y).trans (List.Perm.swap x y ys)

theorem sortKeyed_perm (l : List (Nat × Nat)) : List.Perm (sortKeyed l) l := by
  induction l with
  | nil => exact List.Perm.refl _
  | cons x xs ih => exact (insertKeyed_perm x (sortKeyed xs)).trans (ih.cons x)

theorem permutation_perm (seed n : Nat) : List.Perm (permutation seed n) (List.range n) := by
  have h1 := (sortKeyed_perm ((List.range n).map (fun i => (keyOf seed i, i)))).map Prod.snd
  have h2 : ((List.range n).map (fun i => (keyOf seed i, i))).map Prod.snd
      = List.range n := by
    simp [List.map_map, Function.comp_def]
  rw [h2] at h1
  exact h1

theorem permutation_nodup (seed n : Nat) : (permutation seed n).Nodup :=
  ((permutation_perm seed n).symm.nodup) (List.nodup_range n)

theorem permutation_length (seed n : Nat) : (permutation seed n).length = n := by
  rw [(permutation_perm seed n).length_eq, List.length_range]

theorem train_test_split_ok {n : Nat} {p : ℚ} {seed : Nat} {tr te : List Nat}
    (h : train_test_split n p seed = .ok (tr, te)) :
    tr.Disjoint te ∧ tr.length + te.length = n := by
  unfold train_test_split at h
  split at h
  · cases h
  · rename_i hcond
    have h1 := Except.ok.inj h
    have htr : (permutation seed n).drop (nTestOf n p) = tr := congrArg Prod.fst h1
    have hte : (permutation seed n).take (nTestOf n p) = te := congrArg Prod.snd h1
    subst htr
    subst hte
    have hnd := permutation_nodup seed n
    have hlen := permutation_length seed n
    have hTle : nTestOf n p ≤ n := by
      by_contra hgt
      exact hcond (Or.inr (by omega))
    constructor
    · intro i hidrop hitake
      have hsplit : (permutation seed n).take (nTestOf n p)
          ++ (permutation seed n).drop (nTestOf n p) = permutation seed n :=
        List.take_append_drop _ _
      rw [← hsplit] at hnd
      exact (List.nodup_append.1 hnd).2.2 hitake hidrop
    · rw [List.length_drop, List.length_take, hlen]
      omega

theorem prep_input_ok {df : Df} {cols : List String} {p : ℚ} {r : PrepResult}
    (h : (prep_input df cols p).2 = .ok r) :
    ∃ sel y, selectCols (prepClean df) cols = .ok sel ∧
      lookupCol sel ("mean_no2") = some y ∧
      train_test_split (nRows sel) p 101 = .ok (r.trainIdx, r.testIdx) := by
  simp only [prep_input] at h
  split at h
  · cases h
  · rename_i sel hsel
    split at h
    · cases h
    · rename_i y hy
      split at h
      · cases h
      · rename_i tr te htt
        refine ⟨sel, y, hsel, hy, ?_⟩
        have h1 := Except.ok.inj h
        rw [← h1]
        exact htt

theorem colLen_cleanCol (c : Col) : colLen (cleanCol c) = colLen c := by
  cases c <;> simp [cleanCol, colLen]

theorem mem_map_colLen {d : Df} {f : (String × Col) → (String × Col)}
    (hf : ∀ p, colLen (f p).2 = colLen p.2) {q : String × Col}
    (hq : q ∈ d.map f) : ∃ q₀ ∈ d, colLen q.2 = colLen q₀.2 := by
  obtain ⟨q₀, hq₀, rfl⟩ := List.mem_map.1 hq
  exact ⟨q₀, hq₀, hf q₀⟩

theorem valReplace_colLen {d : Df} {col : String} {q : String × Col}
    (hq : q ∈ valReplace d col) : ∃ q₀ ∈ d, colLen q.2 = colLen q₀.2 := by
  refine mem_map_colLen ?_ hq
  intro p
  by_cases h : (p.1 == col) = true <;> simp [h, colLen_cleanCol]

theorem renameCol_colLen {d : Df} {old nn : String} {q : String × Col}
    (hq : q ∈ renameCol old nn d) : ∃ q₀ ∈ d, colLen q.2 = colLen q₀.2 := by
  refine mem_map_colLen ?_ hq
  intro p
  by_cases h : (p.1 == old) = true <;> simp [h]

theorem stepClean_colLen {d : Df} {col : String} {q : String × Col}
    (hq : q ∈ stepClean d col) : ∃ q₀ ∈ d, colLen q.2 = colLen q₀.2 := by
  simp only [stepClean] at hq
  split at hq
  · split at hq
    · obtain ⟨q₁, hq₁, h1⟩ := renameCol_colLen hq
      obtain ⟨q₀, hq₀, h2⟩ := valReplace_colLen hq₁
      exact ⟨q₀, hq₀, h1.trans h2⟩
    · exact renameCol_colLen hq
  · split at hq
    · exact valReplace_colLen hq
    · exact ⟨q, hq, rfl⟩

theorem prepClean_colLen {df : Df} {q : String × Col} (hq : q ∈ prepClean df) :
    ∃ q₀ ∈ df, colLen q.2 = colLen q₀.2 := by
  suffices h : ∀ (names : List String) (d : Df) (q : String × Col),
      q ∈ names.foldl stepClean d → ∃ q₀ ∈ d, colLen q.2 = colLen q₀.2 from
    h _ df q hq
  intro names
  induction names with
  | nil =>
    intro d q hq
    exact ⟨q, hq, rfl⟩
  | cons nm names ih =>
    intro d q hq
    rw [List.foldl_cons] at hq
    obtain ⟨q₁, hq₁, h1⟩ := ih (stepClean d nm) q hq
    obtain ⟨q₀, hq₀, h2⟩ := stepClean_colLen hq₁
    exact ⟨q₀, hq₀, h1.trans h2⟩

/-- C5: whenever `prep_input` succeeds on a rectangular table with `N` rows,
the train and test partitions are disjoint row-index sets and their sizes sum
exactly to `N` (so in particular within rounding of one row). -/
theorem c5_partition_sizes (df : Df) (cols : List String) (p : ℚ) (N : Nat)
    (hrect : ∀ e ∈ df, colLen e.2 = N) (r : PrepResult)
    (h : (prep_input df cols p).2 = .ok r) :
    r.trainIdx.Disjoint r.testIdx ∧ r.trainIdx.length + r.testIdx.length = N := by
  obtain ⟨sel, y, hsel, hy, htt⟩ := prep_input_ok h
  have hNe : sel ≠ [] := by
    intro hnil
    rw [hnil] at hy
    cases hy
  have hsel_len : ∀ e ∈ sel, colLen e.2 = N := by
    intro e he
    have h2 := (selectCols_ok_mem hsel e he).2
    have h3 := lookupCol_some_mem h2
    obtain ⟨q, hq, hlen⟩ := prepClean_colLen h3
    rw [show e.2 = ((e.1, e.2) : String × Col).2 from rfl, hlen]
    exact hrect q hq
  have hN : nRows sel = N := by
    cases sel with
    | nil => cases hNe rfl
    | cons e sel' => exact hsel_len e (List.mem_cons_self _ _)
  rw [hN] at htt
  exact train_test_split_ok htt

unseal Rat.add Rat.sub Rat.mul Rat.inv in
/-- C5 witness: on the concrete three-row table with test fraction 1/3, the
partitions `[1, 0]` and `[2]` are disjoint and their sizes sum to 3. -/
theorem c5_witness :
    (([1, 0] : List Nat).Disjoint [2]) ∧
    ([1, 0] : List Nat).length + ([2] : List Nat).length = 3 :=
  c5_partition_sizes [(("mean_no2"), Col.flt [10, 20, 30])] [("mean_no2")]
    (mkRat 1 3) 3 (by decide) ⟨[], Col.flt [10, 20, 30], [1, 0], [2]⟩
    (by decide)
